import Mathlib

/-!
Verification of the Edo Lab starter repository (browser SDK `edo.js` plus the
local development proxy `dev-proxy.js`).

The development proxy keeps a PKCE session store (`_pkce`, a JS `Map` from the
OAuth `state` string to the PKCE code verifier), a single in-memory token
record (`_token`, `_tokenExpiry`), and an HTTP request handler dispatching on
the parsed URL.  The browser SDK serializes query parameters and handles the
manual token paste fallback.  Each of those pieces is embedded below as an
executable Lean function translated from the JavaScript source, and the
specification's claims are settled against these embeddings.

The file is organized with all definitions first, followed by all theorems.
-/

namespace Edo

/-! ## Definitions -/

/-! ### JS `Map` over string keys, as an association list.

`Map.set` updates the value in place when the key exists (keeping insertion
order) and appends otherwise; `Map.get` returns the first (unique) entry;
`Map.delete` removes the entry for the key.  The proxy's `_pkce` map stores
`state → verifier`. -/

abbrev StrMap := List (String × String)

def mapGet (m : StrMap) (k : String) : Option String :=
  match m with
  | [] => none
  | e :: rest => if e.1 = k then some e.2 else mapGet rest k

def mapSet (m : StrMap) (k v : String) : StrMap :=
  match m with
  | [] => [(k, v)]
  | e :: rest => if e.1 = k then (k, v) :: rest else e :: mapSet rest k v

def mapDelete (m : StrMap) (k : String) : StrMap :=
  match m with
  | [] => []
  | e :: rest => if e.1 = k then rest else e :: mapDelete rest k

/-- `/oauth/start` (dev-proxy.js): `_pkce.set(state, verifier)`. -/
def pkceBegin (m : StrMap) (state verifier : String) : StrMap :=
  mapSet m state verifier

/-- The callback's consumption of a PKCE entry (dev-proxy.js):
`const verifier = _pkce.get(state); _pkce.delete(state);` —
returns the looked-up verifier together with the map after deletion. -/
def pkceComplete (m : StrMap) (state : String) : Option String × StrMap :=
  (mapGet m state, mapDelete m state)

/-! ### Token cache and the `/api/dev-auth/status` endpoint.

`tokenValid()` (dev-proxy.js) is `!!(_token && _tokenExpiry > Date.now() + 60_000)`;
the status endpoint answers `{ready:true, token:_token}` when it holds and
`{ready:false}` otherwise.  `_token` is `null` or the access token string;
JS truthiness makes the empty string falsy, which `jsTruthy` mirrors. -/

structure TokenState where
  token : Option String
  tokenExpiry : Nat
deriving DecidableEq

def jsTruthy : Option String → Bool
  | none => false
  | some s => !(s = "")

def tokenValid (st : TokenState) (now : Nat) : Bool :=
  jsTruthy st.token && decide (st.tokenExpiry > now + 60000)

inductive StatusBody where
  | ready (token : String)
  | notReady
deriving DecidableEq

/-- `/api/dev-auth/status` (dev-proxy.js): body is `{ready:true, token}` when
`tokenValid()`, else `{ready:false}`. -/
def statusEndpoint (st : TokenState) (now : Nat) : StatusBody :=
  if tokenValid st now then StatusBody.ready (st.token.getD "") else StatusBody.notReady

/-! ### The `/api/edo/*` reverse proxy (dev-proxy.js).

The proxied request is issued with exactly the headers object
`{ Authorization: req.headers['authorization'] ?? '', 'Content-Type':
'application/json', Accept: 'application/json' }` (Node lowercases incoming
header names, so the caller's header map is keyed in lowercase).  The upstream
response is relayed with `res.writeHead(proxyRes.statusCode, { 'Content-Type':
proxyRes.headers['content-type'] ?? 'application/json' })` followed by
`proxyRes.pipe(res)`. -/

def buildProxyHeaders (callerHeaders : StrMap) : StrMap :=
  [("Authorization", (mapGet callerHeaders "authorization").getD ""),
   ("Content-Type", "application/json"),
   ("Accept", "application/json")]

structure UpstreamResponse where
  statusCode : Nat
  contentType : Option String
  body : String
deriving DecidableEq

/-- What the proxy writes back to the caller: status, Content-Type header,
and the piped body. -/
def relayResponse (u : UpstreamResponse) : Nat × String × String :=
  (u.statusCode, u.contentType.getD "application/json", u.body)

/-- `parsed.pathname.slice('/api/edo'.length) || '/'`. -/
def forwardPath (pathname : String) : String :=
  let p := pathname.drop 8
  if p = "" then "/" else p

/-! ### The OAuth callback handler (dev-proxy.js).

Reached for `pathname === '/' && parsed.search?.includes('code=')`.  Reads
`code`, `state` and `errMsg = error_description ?? error` from the query.
If `errMsg` is truthy it writes a 200 error page and returns — before the
PKCE lookup, so the map is untouched.  Otherwise it runs
`_pkce.get(state); _pkce.delete(state)`, writes a 400 invalid-callback page
when `!code || !verifier`, and otherwise invokes the token exchange, writing
200 on every exchange outcome (token persisted only when the response carries
an `access_token`). -/

inductive ExchangeOutcome where
  | success (accessToken : String) (expiresIn : Nat)
  | errorResponse (desc : String)
  | threw (msg : String)
deriving DecidableEq

structure CallbackResult where
  status : Nat
  isErrorPage : Bool
  exchangeInvoked : Bool
  tokenPersisted : Bool
  pkceAfter : StrMap
deriving DecidableEq

def handleCallback (pkce : StrMap) (codeQ stateQ errQ : Option String)
    (ex : ExchangeOutcome) : CallbackResult :=
  if jsTruthy errQ then
    { status := 200, isErrorPage := true, exchangeInvoked := false,
      tokenPersisted := false, pkceAfter := pkce }
  else
    let verifier := stateQ.bind (mapGet pkce)
    let pkce1 := match stateQ with
      | some s => mapDelete pkce s
      | none => pkce
    if !jsTruthy codeQ || verifier.isNone then
      { status := 400, isErrorPage := true, exchangeInvoked := false,
        tokenPersisted := false, pkceAfter := pkce1 }
    else
      match ex with
      | ExchangeOutcome.success _ _ =>
          { status := 200, isErrorPage := false, exchangeInvoked := true,
            tokenPersisted := true, pkceAfter := pkce1 }
      | ExchangeOutcome.errorResponse _ =>
          { status := 200, isErrorPage := true, exchangeInvoked := true,
            tokenPersisted := false, pkceAfter := pkce1 }
      | ExchangeOutcome.threw _ =>
          { status := 200, isErrorPage := true, exchangeInvoked := true,
            tokenPersisted := false, pkceAfter := pkce1 }

/-! ### Request dispatch (dev-proxy.js `handleRequest`).

After the CORS preflight short-circuit (`req.method === 'OPTIONS'`), the
handler tries in order: the OAuth callback
(`parsed.pathname === '/' && parsed.search?.includes('code=')` — a literal
substring test on the raw query string, which is `null` when absent),
`/oauth/start`, `/api/dev-auth/status`, the `/api/edo` path test
(`pathname.startsWith('/api/edo')`), and finally the static file fallback. -/

/-- JS `String.prototype.includes`, over character lists. -/
def hasSub (needle : List Char) : List Char → Bool
  | [] => needle.isEmpty
  | c :: t => needle.isPrefixOf (c :: t) || hasSub needle t

inductive Route where
  | preflight
  | callback
  | oauthStart
  | authStatus
  | apiProxy
  | staticFile
deriving DecidableEq

def searchHasCode (search : Option String) : Bool :=
  match search with
  | some q => hasSub "code=".data q.data
  | none => false

def routeOf (method pathname : String) (search : Option String) : Route :=
  if method = "OPTIONS" then Route.preflight
  else if pathname = "/" ∧ searchHasCode search = true then Route.callback
  else if pathname = "/oauth/start" then Route.oauthStart
  else if pathname = "/api/dev-auth/status" then Route.authStatus
  else if "/api/edo".data.isPrefixOf pathname.data then Route.apiProxy
  else Route.staticFile

/-! ### Static file fallback (dev-proxy.js).

`path.join(__dirname, pathname === '/' ? 'index.html' : pathname)` joins and
normalizes (`.`/`..`/empty segments resolved, `..` popping one directory, not
above the root); the result is served only when
`filePath.startsWith(__dirname + path.sep) || filePath === __dirname`,
otherwise the server answers 403 Forbidden without reading anything.  Paths
are modelled as absolute segment lists; `__dirname` is assumed normalized. -/

def splitSlashAux : List Char → List Char → List String
  | [], cur => [String.mk cur.reverse]
  | c :: t, cur =>
    if c = '/' then String.mk cur.reverse :: splitSlashAux t []
    else splitSlashAux t (c :: cur)

def splitSlash (p : String) : List String := splitSlashAux p.data []

def normSegs (segs : List String) : List String :=
  segs.foldl (fun acc seg =>
    if seg = "" ∨ seg = "." then acc
    else if seg = ".." then acc.dropLast
    else acc ++ [seg]) []

def staticFilePath (dir : List String) (pathname : String) : List String :=
  if pathname = "/" then dir ++ ["index.html"]
  else normSegs (dir ++ splitSlash pathname)

inductive StaticAction where
  | forbidden
  | readFile (p : List String)
deriving DecidableEq

def staticRoute (dir : List String) (pathname : String) : StaticAction :=
  if dir.isPrefixOf (staticFilePath dir pathname) then
    StaticAction.readFile (staticFilePath dir pathname)
  else StaticAction.forbidden

/-! ### Query parameter serialization (edo.js `get`).

`Object.entries(params).forEach(([k, v]) => { if (Array.isArray(v))
v.forEach(x => url.searchParams.append(k, String(x))); else if (v !==
undefined && v !== null) url.searchParams.set(k, String(v)); })`.
`URLSearchParams.append` adds a pair at the end; `set` replaces the first
pair with that key (deleting any others) or appends when the key is absent.
Values are modelled post-`String(x)`. -/

inductive ParamValue where
  | arr (xs : List String)
  | scalar (s : String)
  | null
  | undef
deriving DecidableEq

def spAppend (q : StrMap) (k v : String) : StrMap := q ++ [(k, v)]

def deleteAll (q : StrMap) (k : String) : StrMap :=
  match q with
  | [] => []
  | e :: rest => if e.1 = k then deleteAll rest k else e :: deleteAll rest k

def spSetReplace (q : StrMap) (k v : String) : StrMap :=
  match q with
  | [] => []
  | e :: rest =>
    if e.1 = k then (k, v) :: deleteAll rest k else e :: spSetReplace rest k v

def spSet (q : StrMap) (k v : String) : StrMap :=
  if (mapGet q k).isSome then spSetReplace q k v else q ++ [(k, v)]

def serializeStep (q : StrMap) (kv : String × ParamValue) : StrMap :=
  match kv.2 with
  | ParamValue.arr xs => xs.foldl (fun q2 x => spAppend q2 kv.1 x) q
  | ParamValue.scalar s => spSet q kv.1 s
  | ParamValue.null => q
  | ParamValue.undef => q

def serializeParams (params : List (String × ParamValue)) : StrMap :=
  params.foldl serializeStep []

/-- The query pairs a single parameter entry contributes, per the spec:
a list value becomes repeated keys in element order, a scalar a single key,
`null`/`undefined` nothing. -/
def entryPairs (kv : String × ParamValue) : StrMap :=
  match kv.2 with
  | ParamValue.arr xs => xs.map (fun x => (kv.1, x))
  | ParamValue.scalar s => [(kv.1, s)]
  | ParamValue.null => []
  | ParamValue.undef => []

/-- `url.searchParams.toString()`, without percent-encoding (the witness
values need none), prefixed by `?` as in a rendered URL. -/
def renderQuery (q : StrMap) : String :=
  match q with
  | [] => ""
  | _ => "?" ++ String.intercalate "&" (q.map (fun e => e.1 ++ "=" ++ e.2))

/-! ### Manual token paste (edo.js `connectWithToken`).

`const raw = input.value.trim(); const token = raw.replace(/^Bearer\s+/i, '');
if (!token) return; finishConnect(token);` — returning without
`finishConnect` leaves the overlay open and the readiness promise pending,
modelled as `none`. -/

def isJsWS (c : Char) : Bool :=
  c.toNat == 32 || c.toNat == 9 || c.toNat == 10 || c.toNat == 13
    || c.toNat == 11 || c.toNat == 12 || c.toNat == 160

/-- `String.prototype.trim`: remove leading and trailing whitespace. -/
def jsTrim (s : List Char) : List Char :=
  ((s.dropWhile isJsWS).reverse.dropWhile isJsWS).reverse

/-- Does the list start with `Bearer` case-insensitively (the literal part of
the regex `/^Bearer\s+/i`)? -/
def matchesBearer (s : List Char) : Bool :=
  match s with
  | b :: e :: a :: r :: e2 :: r2 :: _ =>
    b.toLower == 'b' && e.toLower == 'e' && a.toLower == 'a' && r.toLower == 'r'
      && e2.toLower == 'e' && r2.toLower == 'r'
  | _ => false

/-- `raw.replace(/^Bearer\s+/i, '')`: when the string starts with `Bearer`
(any case) followed by at least one whitespace character, remove that prefix
and the maximal (greedy `\s+`) whitespace run after it; otherwise leave the
string unchanged. -/
def stripBearer (s : List Char) : List Char :=
  if matchesBearer s then
    match s.drop 6 with
    | [] => s
    | c :: rest => if isJsWS c then List.dropWhile isJsWS rest else s
  else s

def connectWithToken (input : List Char) : Option (List Char) :=
  let raw := jsTrim input
  let token := stripBearer raw
  if token.isEmpty then none else some token

/-! ## Theorems -/

/-! ### PKCE session store lemmas and claim C1 -/

theorem mapGet_mapSet_self (m : StrMap) (k v : String) :
    mapGet (mapSet m k v) k = some v := by
  induction m with
  | nil => simp [mapSet, mapGet]
  | cons e rest ih =>
    by_cases h : e.1 = k
    · simp [mapSet, mapGet, h]
    · simp [mapSet, mapGet, h, ih]

theorem mapGet_mapSet_ne (m : StrMap) (k v k' : String) (h : k' ≠ k) :
    mapGet (mapSet m k v) k' = mapGet m k' := by
  induction m with
  | nil => simp [mapSet, mapGet, Ne.symm h]
  | cons e rest ih =>
    by_cases he : e.1 = k
    · have hk : ¬ e.1 = k' := by rw [he]; exact Ne.symm h
      simp [mapSet, mapGet, he, hk, Ne.symm h]
    · by_cases he' : e.1 = k'
      · simp [mapSet, mapGet, he, he', h, ih]
      · simp [mapSet, mapGet, he, he', ih]

theorem mapGet_mapDelete_self_of_fresh (m : StrMap) (k v : String)
    (hfresh : mapGet m k = none) :
    mapGet (mapDelete (mapSet m k v) k) k = none := by
  induction m with
  | nil => simp [mapSet, mapDelete, mapGet]
  | cons e rest ih =>
    by_cases he : e.1 = k
    · simp [mapGet, he] at hfresh
    · simp [mapGet, he] at hfresh
      simp [mapSet, mapDelete, mapGet, he, ih hfresh]

/-- C1: a `(state, verifier)` pair created by `pkceBegin` (the
`/oauth/start` handler) is returned by exactly one subsequent
`pkceComplete state`: the first lookup yields the original verifier, a second
lookup on the resulting map yields nothing, and a lookup with a state never
created yields nothing. -/
theorem pkce_begin_complete_once (m : StrMap) (state v : String)
    (hfresh : mapGet m state = none) :
    (pkceComplete (pkceBegin m state v) state).1 = some v
    ∧ (pkceComplete (pkceComplete (pkceBegin m state v) state).2 state).1 = none
    ∧ ∀ s, mapGet m s = none → s ≠ state →
        (pkceComplete (pkceBegin m state v) s).1 = none := by
  refine ⟨mapGet_mapSet_self m state v, ?_, ?_⟩
  · exact mapGet_mapDelete_self_of_fresh m state v hfresh
  · intro s hs hne
    simpa [pkceComplete, pkceBegin, mapGet_mapSet_ne m state v s hne] using hs

/-- Witness for C1 at a concrete store. -/
theorem pkce_begin_complete_once_witness :
    (pkceComplete (pkceBegin [] "st" "ver") "st").1 = some "ver" :=
  (pkce_begin_complete_once [] "st" "ver" rfl).1

/-! ### Status endpoint: claim C2 -/

/-- C2: in any state whose token record (if present) is a non-empty access
token, the status endpoint reports `{ready:true, token}` exactly when the
stored expiry instant is more than 60 seconds (60 000 ms) after the current
time, and reports `{ready:false}` otherwise; in particular a record expiring
less than 60 seconds in the future is never reported valid. -/
theorem status_ready_iff (st : TokenState) (now : Nat)
    (hwf : ∀ s, st.token = some s → s ≠ "") :
    (∀ s, statusEndpoint st now = StatusBody.ready s ↔
        st.token = some s ∧ st.tokenExpiry > now + 60000)
    ∧ (st.tokenExpiry < now + 60000 → statusEndpoint st now = StatusBody.notReady) := by
  constructor
  · intro s
    constructor
    · intro h
      by_cases hv : tokenValid st now = true
      · have hbody : StatusBody.ready (st.token.getD "") = StatusBody.ready s := by
          simpa [statusEndpoint, hv] using h
        have hs : st.token.getD "" = s := by
          injection hbody
        have htr : jsTruthy st.token = true ∧ st.tokenExpiry > now + 60000 := by
          simpa [tokenValid, Bool.and_eq_true] using hv
        cases htok : st.token with
        | none => simp [jsTruthy, htok] at htr
        | some t =>
          have : t = s := by simpa [htok] using hs
          exact ⟨by simp [htok, this], htr.2⟩
      · simp [statusEndpoint, hv] at h
    · rintro ⟨htok, hexp⟩
      have hne : s ≠ "" := hwf s htok
      have hv : tokenValid st now = true := by
        simp [tokenValid, jsTruthy, htok, hne, hexp]
      simp [statusEndpoint, hv, htok]
  · intro hlt
    have hv : tokenValid st now = false := by
      have : ¬ st.tokenExpiry > now + 60000 := by omega
      simp [tokenValid, this]
    simp [statusEndpoint, hv]

/-- Witness for C2: a token expiring well in the future is reported ready. -/
theorem status_ready_iff_witness :
    statusEndpoint ⟨some "tok", 10000000⟩ 0 = StatusBody.ready "tok" :=
  ((status_ready_iff ⟨some "tok", 10000000⟩ 0
      (by intro s hs; cases hs; simp)).1 "tok").mpr ⟨rfl, by decide⟩

/-! ### Reverse proxy: claims C3 and C10 -/

/-- C3: when the caller supplies an Authorization header, the reverse
proxy forwards exactly that value upstream, and relays the upstream status,
content type (when the upstream supplies one) and body back verbatim. -/
theorem proxy_passthrough_verbatim (callerHeaders : StrMap) (a : String)
    (hauth : mapGet callerHeaders "authorization" = some a)
    (u : UpstreamResponse) (c : String) (hct : u.contentType = some c) :
    mapGet (buildProxyHeaders callerHeaders) "Authorization" = some a
    ∧ relayResponse u = (u.statusCode, c, u.body) := by
  refine ⟨?_, ?_⟩
  · simp [buildProxyHeaders, mapGet, hauth]
  · simp [relayResponse, hct]

/-- Witness for C3 at a concrete request and upstream response. -/
theorem proxy_passthrough_verbatim_witness :
    mapGet (buildProxyHeaders [("authorization", "Bearer xyz")]) "Authorization"
      = some "Bearer xyz"
    ∧ relayResponse ⟨200, some "text/csv", "a,b"⟩ = (200, "text/csv", "a,b") :=
  proxy_passthrough_verbatim [("authorization", "Bearer xyz")] "Bearer xyz" rfl
    ⟨200, some "text/csv", "a,b"⟩ "text/csv" rfl

/-- C10: the header object sent upstream holds exactly the three keys
`Authorization` (the caller's `authorization` value, defaulted to the empty
string), `Content-Type` and `Accept` (both fixed to `application/json`); any
other caller-supplied header is absent from it. -/
theorem proxy_exactly_three_headers (callerHeaders : StrMap) :
    (buildProxyHeaders callerHeaders).map Prod.fst
      = ["Authorization", "Content-Type", "Accept"]
    ∧ mapGet (buildProxyHeaders callerHeaders) "Authorization"
      = some ((mapGet callerHeaders "authorization").getD "")
    ∧ mapGet (buildProxyHeaders callerHeaders) "Content-Type" = some "application/json"
    ∧ mapGet (buildProxyHeaders callerHeaders) "Accept" = some "application/json"
    ∧ ∀ k, k ≠ "Authorization" → k ≠ "Content-Type" → k ≠ "Accept" →
        mapGet (buildProxyHeaders callerHeaders) k = none := by
  refine ⟨rfl, by simp [buildProxyHeaders, mapGet], by simp [buildProxyHeaders, mapGet],
    by simp [buildProxyHeaders, mapGet], ?_⟩
  intro k h1 h2 h3
  simp [buildProxyHeaders, mapGet, Ne.symm h1, Ne.symm h2, Ne.symm h3]

/-- Witness for C10: a caller-supplied Cookie header is dropped. -/
theorem proxy_exactly_three_headers_witness :
    mapGet (buildProxyHeaders [("cookie", "sid=1"), ("authorization", "t")]) "cookie"
      = none :=
  (proxy_exactly_three_headers [("cookie", "sid=1"), ("authorization", "t")]).2.2.2.2
    "cookie" (by decide) (by decide) (by decide)

/-! ### OAuth callback: claims C4 and C5 -/

/-- C4 counterexample: a callback carrying a `code` but an unknown
`state` is answered with HTTP status 400, not 200 — so the callback route
does respond with a non-2xx status. -/
theorem callback_unknown_state_is_400 :
    (handleCallback [] (some "abc") (some "unknown") none
        (ExchangeOutcome.success "t" 3600)).status = 400
    ∧ (handleCallback [] (some "abc") (some "unknown") none
        (ExchangeOutcome.success "t" 3600)).status ≠ 200 := by
  decide

/-- C4 (amended): every callback response carries status 200 or 400, and
400 occurs exactly in the invalid-callback case: no provider error reported
and (missing/empty `code` or no PKCE verifier found for the `state`). -/
theorem callback_status_characterization (pkce : StrMap)
    (codeQ stateQ errQ : Option String) (ex : ExchangeOutcome) :
    ((handleCallback pkce codeQ stateQ errQ ex).status = 200
      ∨ (handleCallback pkce codeQ stateQ errQ ex).status = 400)
    ∧ ((handleCallback pkce codeQ stateQ errQ ex).status = 400 ↔
        jsTruthy errQ = false
        ∧ (jsTruthy codeQ = false ∨ stateQ.bind (mapGet pkce) = none)) := by
  cases herr : jsTruthy errQ with
  | true => simp [handleCallback, herr]
  | false =>
    cases hcode : jsTruthy codeQ with
    | false => simp [handleCallback, herr, hcode]
    | true =>
      cases hv : stateQ.bind (mapGet pkce) with
      | none => simp [handleCallback, herr, hcode, hv]
      | some v =>
        cases ex <;> simp [handleCallback, herr, hcode, hv]

/-- Witness for C4 (amended): a callback with no `state` parameter is the
invalid case and yields 400. -/
theorem callback_status_characterization_witness :
    (handleCallback [] (some "c") none none
        (ExchangeOutcome.success "t" 1)).status = 400 :=
  (callback_status_characterization [] (some "c") none none
      (ExchangeOutcome.success "t" 1)).2.mpr ⟨rfl, Or.inr rfl⟩

/-- C5 counterexample: on a provider-reported error the handler renders
the failure page without exchanging, but the PKCE entry for the state is NOT
discarded: it is still in the map afterwards. -/
theorem callback_provider_error_keeps_entry :
    (handleCallback [("s", "v")] (some "c") (some "s") (some "denied")
        (ExchangeOutcome.success "t" 1)).exchangeInvoked = false
    ∧ mapGet (handleCallback [("s", "v")] (some "c") (some "s") (some "denied")
        (ExchangeOutcome.success "t" 1)).pkceAfter "s" = some "v" := by
  decide

/-- C5 (amended): when the callback carries a truthy provider error
parameter, the handler responds 200 with a failure page, never invokes the
token exchange, and leaves the PKCE map unchanged (the entry for the state is
not removed). -/
theorem callback_provider_error_no_exchange (pkce : StrMap)
    (codeQ stateQ errQ : Option String) (ex : ExchangeOutcome)
    (herr : jsTruthy errQ = true) :
    (handleCallback pkce codeQ stateQ errQ ex).status = 200
    ∧ (handleCallback pkce codeQ stateQ errQ ex).isErrorPage = true
    ∧ (handleCallback pkce codeQ stateQ errQ ex).exchangeInvoked = false
    ∧ (handleCallback pkce codeQ stateQ errQ ex).tokenPersisted = false
    ∧ (handleCallback pkce codeQ stateQ errQ ex).pkceAfter = pkce := by
  simp [handleCallback, herr]

/-- Witness for C5 (amended) at a concrete callback. -/
theorem callback_provider_error_no_exchange_witness :
    (handleCallback [("s", "v")] (some "c") (some "s") (some "access_denied")
        (ExchangeOutcome.threw "net")).pkceAfter = [("s", "v")] :=
  (callback_provider_error_no_exchange [("s", "v")] (some "c") (some "s")
      (some "access_denied") (ExchangeOutcome.threw "net") (by decide)).2.2.2.2

/-! ### Request dispatch: claim C9 -/

/-- C9: the callback branch handles a request only when the path is
exactly `/` and the raw query string contains the literal substring `code=`;
a redirect to `/` whose query string lacks that substring (e.g. one carrying
only `error`/`error_description`/`state` parameters, whose values are
percent-encoded) is dispatched to the static file fallback instead. -/
theorem callback_route_requires_code_substring :
    (∀ m p s, routeOf m p s = Route.callback →
        p = "/" ∧ ∃ q, s = some q ∧ hasSub "code=".data q.data = true)
    ∧ (∀ q : String, hasSub "code=".data q.data = false →
        routeOf "GET" "/" (some q) = Route.staticFile) := by
  constructor
  · intro m p s h
    by_cases h1 : m = "OPTIONS"
    · simp [routeOf, h1] at h
    · by_cases h2 : p = "/" ∧ searchHasCode s = true
      · obtain ⟨hp, hc⟩ := h2
        subst hp
        cases s with
        | none => simp [searchHasCode] at hc
        | some q => exact ⟨rfl, q, rfl, by simpa [searchHasCode] using hc⟩
      · exfalso
        by_cases h3 : p = "/oauth/start" <;>
          by_cases h4 : p = "/api/dev-auth/status" <;>
          by_cases h5 : "/api/edo".data.isPrefixOf p.data = true <;>
          simp [routeOf, h1, h2, h3, h4, h5] at h
  · intro q hq
    have h2 : ¬ (("/" : String) = "/" ∧ searchHasCode (some q) = true) := by
      simp [searchHasCode, hq]
    have h5 : "/api/edo".data.isPrefixOf "/".data = false := by decide
    simp [routeOf, h2, h5, searchHasCode, hq]

/-- Witness for C9: an error-only provider redirect to `/` is served by the
static file fallback. -/
theorem callback_route_requires_code_substring_witness :
    routeOf "GET" "/" (some "?error=access_denied&error_description=AADB2C90091&state=xyz")
      = Route.staticFile :=
  callback_route_requires_code_substring.2
    "?error=access_denied&error_description=AADB2C90091&state=xyz" (by decide)

/-! ### Static fallback: claim C8 -/

/-- C8: if the resolved filesystem path escapes the server's own
directory (it does not extend `__dirname`), the static handler answers
Forbidden and never reads (serves) any file. -/
theorem static_escape_forbidden (dir : List String) (pathname : String)
    (hesc : dir.isPrefixOf (staticFilePath dir pathname) = false) :
    staticRoute dir pathname = StaticAction.forbidden
    ∧ ∀ p, staticRoute dir pathname ≠ StaticAction.readFile p := by
  have h : staticRoute dir pathname = StaticAction.forbidden := by
    simp [staticRoute, hesc]
  exact ⟨h, fun p hp => by rw [h] at hp; exact StaticAction.noConfusion hp⟩

/-- Witness for C8: a directory-traversal request is rejected. -/
theorem static_escape_forbidden_witness :
    staticRoute ["home", "starter"] "/../../etc/passwd" = StaticAction.forbidden :=
  (static_escape_forbidden ["home", "starter"] "/../../etc/passwd" (by decide)).1

/-! ### Query serialization: claim C6 -/

theorem foldl_spAppend_eq (k : String) (xs : List String) (q : StrMap) :
    xs.foldl (fun q2 x => spAppend q2 k x) q = q ++ xs.map (fun x => (k, x)) := by
  induction xs generalizing q with
  | nil => simp
  | cons x t ih =>
    rw [List.foldl_cons, ih (spAppend q k x)]
    simp [spAppend]

theorem mapGet_eq_none_iff (q : StrMap) (k : String) :
    mapGet q k = none ↔ ∀ e ∈ q, e.1 ≠ k := by
  induction q with
  | nil => simp [mapGet]
  | cons e rest ih =>
    by_cases he : e.1 = k
    · simp [mapGet, he]
    · simp [mapGet, he, ih]

theorem spSet_absent (q : StrMap) (k v : String) (h : mapGet q k = none) :
    spSet q k v = q ++ [(k, v)] := by
  simp [spSet, h]

theorem fst_mem_entryPairs (kv : String × ParamValue) (e : String × String)
    (he : e ∈ entryPairs kv) : e.1 = kv.1 := by
  cases kv with
  | mk k v =>
    cases v with
    | arr xs =>
      simp [entryPairs] at he
      obtain ⟨x, _, hx⟩ := he
      simp [← hx]
    | scalar s => simp [entryPairs] at he; simp [he]
    | null => simp [entryPairs] at he
    | undef => simp [entryPairs] at he

theorem serialize_foldl_eq (params : List (String × ParamValue)) (q : StrMap)
    (hq : ∀ kv ∈ params, ∀ e ∈ q, e.1 ≠ kv.1)
    (hnd : (params.map Prod.fst).Nodup) :
    params.foldl serializeStep q = q ++ params.flatMap entryPairs := by
  induction params generalizing q with
  | nil => simp
  | cons kv rest ih =>
    have hstep : serializeStep q kv = q ++ entryPairs kv := by
      cases hv : kv.2 with
      | arr xs => simp [serializeStep, entryPairs, hv, foldl_spAppend_eq]
      | scalar s =>
        have hget : mapGet q kv.1 = none :=
          (mapGet_eq_none_iff q kv.1).mpr (hq kv (List.mem_cons_self kv rest))
        simp [serializeStep, entryPairs, hv, spSet_absent q kv.1 s hget]
      | null => simp [serializeStep, entryPairs, hv]
      | undef => simp [serializeStep, entryPairs, hv]
    have hnd' : (rest.map Prod.fst).Nodup := by
      simpa using hnd.of_cons
    have hq' : ∀ kv' ∈ rest, ∀ e ∈ q ++ entryPairs kv, e.1 ≠ kv'.1 := by
      intro kv' hkv' e he
      rcases List.mem_append.mp he with hin | hin
      · exact hq kv' (List.mem_cons_of_mem kv hkv') e hin
      · have h1 : e.1 = kv.1 := fst_mem_entryPairs kv e hin
        have h2 : kv.1 ∉ rest.map Prod.fst := by
          have := hnd
          simp only [List.map_cons, List.nodup_cons] at this
          exact this.1
        intro hcontra
        apply h2
        have hmem : kv'.1 ∈ List.map Prod.fst rest := List.mem_map_of_mem Prod.fst hkv'
        rwa [← hcontra, h1] at hmem
    calc (kv :: rest).foldl serializeStep q
        = rest.foldl serializeStep (serializeStep q kv) := by simp
      _ = rest.foldl serializeStep (q ++ entryPairs kv) := by rw [hstep]
      _ = (q ++ entryPairs kv) ++ rest.flatMap entryPairs := ih _ hq' hnd'
      _ = q ++ (kv :: rest).flatMap entryPairs := by simp

/-- C6: for a parameter map with (JS-object) distinct keys, the SDK's
`get` serializes list values as repeated query keys preserving element order,
scalar values as single keys, and omits `undefined`/`null` values: the
resulting query pair list is exactly the in-order concatenation of each
entry's contribution. -/
theorem serialize_params_spec (params : List (String × ParamValue))
    (hnd : (params.map Prod.fst).Nodup) :
    serializeParams params = params.flatMap entryPairs := by
  simpa using serialize_foldl_eq params [] (by simp) hnd

/-- Witness for C6: `{id:[1,2], pageSize:500, foo:null}` yields
`?id=1&id=2&pageSize=500`. -/
theorem serialize_params_spec_witness :
    serializeParams
        [("id", ParamValue.arr ["1", "2"]), ("pageSize", ParamValue.scalar "500"),
         ("foo", ParamValue.null)]
      = [("id", "1"), ("id", "2"), ("pageSize", "500")]
    ∧ renderQuery (serializeParams
        [("id", ParamValue.arr ["1", "2"]), ("pageSize", ParamValue.scalar "500"),
         ("foo", ParamValue.null)])
      = "?id=1&id=2&pageSize=500" := by
  have h := serialize_params_spec
    [("id", ParamValue.arr ["1", "2"]), ("pageSize", ParamValue.scalar "500"),
     ("foo", ParamValue.null)] (by decide)
  have h2 : ([("id", ParamValue.arr ["1", "2"]), ("pageSize", ParamValue.scalar "500"),
      ("foo", ParamValue.null)]).flatMap entryPairs
      = [("id", "1"), ("id", "2"), ("pageSize", "500")] := by decide
  refine ⟨h.trans h2, ?_⟩
  rw [h.trans h2]
  decide

/-! ### Manual token paste: claim C7 -/

theorem dropWhile_head_false (p : Char → Bool) (l : List Char)
    (h : ∀ c, l.head? = some c → p c = false) : l.dropWhile p = l := by
  cases l with
  | nil => rfl
  | cons a t => simp [List.dropWhile_cons, h a rfl]

theorem dropWhile_eq_nil_of_all (p : Char → Bool) (l : List Char)
    (h : l.all p = true) : l.dropWhile p = [] := by
  induction l with
  | nil => rfl
  | cons a t ih =>
    simp only [List.all_cons, Bool.and_eq_true] at h
    simp [List.dropWhile_cons, h.1, ih h.2]

theorem jsTrim_of_clean_ends (l : List Char)
    (h1 : ∀ c, l.head? = some c → isJsWS c = false)
    (h2 : ∀ c, l.getLast? = some c → isJsWS c = false) : jsTrim l = l := by
  unfold jsTrim
  rw [dropWhile_head_false isJsWS l h1]
  rw [dropWhile_head_false isJsWS l.reverse
    (by intro c hc; exact h2 c (by rwa [List.head?_reverse] at hc))]
  exact List.reverse_reverse l

/-- C7: the manual paste handler adopts exactly the pasted value with
surrounding whitespace and a leading case-insensitive `Bearer` + whitespace
prefix stripped; an empty result is rejected (`none`: no token adopted, the
overlay stays open), and this is the only rejection.  In particular a
whitespace-only paste is rejected, and a paste of the shape
`"Bearer " ++ core` (with `core` free of leading/trailing whitespace) adopts
`core`. -/
theorem connect_with_token_spec (input : List Char) :
    (connectWithToken input = none ↔ stripBearer (jsTrim input) = [])
    ∧ (∀ t, connectWithToken input = some t →
        t = stripBearer (jsTrim input) ∧ t ≠ [])
    ∧ (input.all isJsWS = true → connectWithToken input = none)
    ∧ (∀ core : List Char, core ≠ [] →
        (∀ c, core.head? = some c → isJsWS c = false) →
        (∀ c, core.getLast? = some c → isJsWS c = false) →
        connectWithToken ("Bearer ".data ++ core) = some core) := by
  refine ⟨?_, ?_, ?_, ?_⟩
  · cases hstrip : stripBearer (jsTrim input) with
    | nil => simp [connectWithToken, hstrip]
    | cons a t => simp [connectWithToken, hstrip]
  · intro t h
    cases hstrip : stripBearer (jsTrim input) with
    | nil => simp [connectWithToken, hstrip] at h
    | cons a t' =>
      simp [connectWithToken, hstrip] at h
      simp [← h]
  · intro hall
    have hdrop : input.dropWhile isJsWS = [] := dropWhile_eq_nil_of_all isJsWS input hall
    have htrim : jsTrim input = [] := by simp [jsTrim, hdrop]
    have hsb : stripBearer ([] : List Char) = [] := rfl
    simp [connectWithToken, htrim, hsb]
  · intro core hne hhead hlast
    have hdata : "Bearer ".data ++ core
        = 'B' :: 'e' :: 'a' :: 'r' :: 'e' :: 'r' :: ' ' :: core := rfl
    rw [hdata]
    have hgl : ('B' :: 'e' :: 'a' :: 'r' :: 'e' :: 'r' :: ' ' :: core).getLast?
        = core.getLast? := by
      have hsplit : ('B' :: 'e' :: 'a' :: 'r' :: 'e' :: 'r' :: ' ' :: core)
          = ['B', 'e', 'a', 'r', 'e', 'r', ' '] ++ core := by simp
      rw [hsplit, List.getLast?_append_of_ne_nil _ hne]
    have htrim : jsTrim ('B' :: 'e' :: 'a' :: 'r' :: 'e' :: 'r' :: ' ' :: core)
        = 'B' :: 'e' :: 'a' :: 'r' :: 'e' :: 'r' :: ' ' :: core := by
      apply jsTrim_of_clean_ends
      · intro c hc
        simp only [List.head?_cons, Option.some.injEq] at hc
        rw [← hc]
        decide
      · intro c hc
        rw [hgl] at hc
        exact hlast c hc
    have hmb : matchesBearer ('B' :: 'e' :: 'a' :: 'r' :: 'e' :: 'r' :: ' ' :: core)
        = true := by
      simp [matchesBearer]
    have hstrip : stripBearer ('B' :: 'e' :: 'a' :: 'r' :: 'e' :: 'r' :: ' ' :: core)
        = core := by
      have hws : isJsWS ' ' = true := by decide
      simp [stripBearer, hmb, hws, dropWhile_head_false isJsWS core hhead]
    cases core with
    | nil => exact absurd rfl hne
    | cons a t =>
      simp [connectWithToken, htrim, hstrip]

/-- Witness for C7: a paste with surrounding whitespace and a lowercase
bearer prefix adopts exactly the stripped, non-empty token. -/
theorem connect_with_token_spec_witness :
    "eyJ0eXAi".data = stripBearer (jsTrim "  bearer  eyJ0eXAi ".data)
    ∧ "eyJ0eXAi".data ≠ ([] : List Char) :=
  (connect_with_token_spec "  bearer  eyJ0eXAi ".data).2.1 "eyJ0eXAi".data
    (by decide)

end Edo
